import Mathlib

/-!
Verification of the SFNUL object-state-replication core (SyncedObject,
SyncedType, Synchronizer interface) against its specification.

The SyncedObject member functions are translated directly from
src/SFNUL/SyncedObject.cpp.  The per-field codec (SyncedType.inl), the
Message byte container and the Synchronizer member function bodies are not
part of the provided sources; where a claim needs them they are modelled
from the specification, and each such definition says so in its doc
comment.
-/

namespace SFNUL

/-! ## Object identifier counter (SyncedObject.cpp, lines 13-17 and 74-76) -/

/-- Modelled from the spec: the width of SyncedObject.id_type.  The header
declaring id_type is not among the provided sources; the spec states that
the identifier counter is a 64-bit counter, so identifiers are unsigned
64-bit values, i.e. naturals reduced modulo 2^64. -/
def id_modulus : Nat := 2 ^ 64

/-- Modelled from the spec: the initial value of the static counter
m_last_id (SyncedObject.cpp line 13 initialises it to invalid_id, whose
definition is in the missing header).  The concrete value does not affect
any theorem below that concerns wrap-around, reuse or monotonicity. -/
def invalid_id : Nat := 0

/-- SyncedObject::NewID (SyncedObject.cpp lines 74-76): the body is
`return ++m_last_id;` on the process-wide counter.  The pre-increment
stores and returns the incremented value; unsigned 64-bit increment wraps
modulo 2^64.  The function maps the previous counter value to the new
counter value, which is also the identifier handed out. -/
def NewID (m_last_id : Nat) : Nat := (m_last_id + 1) % id_modulus

/-- Value of the static counter m_last_id after n constructions of
SyncedObject (each default construction runs m_id = NewID(), lines
15-17). -/
def m_last_id_after : Nat → Nat
  | 0 => invalid_id
  | n + 1 => NewID (m_last_id_after n)

/-- Identifier assigned to the n-th constructed SyncedObject of the
process run (n counted from 1): NewID returns the counter value it has
just stored. -/
def idOfConstruction (n : Nat) : Nat := m_last_id_after n

theorem m_last_id_after_eq (n : Nat) : m_last_id_after n = n % id_modulus := by
  induction n with
  | zero => rfl
  | succ n ih =>
      simp only [m_last_id_after, NewID, ih, id_modulus]
      omega

/-- C2: the claim states that identifiers are strictly increasing across
every sequence of constructions and that an identifier is never reused.
This fails on the code: NewID wraps modulo 2^64, so the 2^64-th
construction receives identifier 0 even though the previous one received
2^64 - 1, and the (2^64 + 1)-th construction reuses identifier 1, which
the first construction already received. -/
theorem newid_wraps_and_reuses_ids :
    idOfConstruction (2 ^ 64) < idOfConstruction (2 ^ 64 - 1) ∧
    idOfConstruction (2 ^ 64 + 1) = idOfConstruction 1 ∧
    (2 : Nat) ^ 64 + 1 ≠ 1 := by
  refine ⟨?_, ?_, by norm_num⟩
  · rw [idOfConstruction, idOfConstruction, m_last_id_after_eq, m_last_id_after_eq,
      id_modulus, Nat.mod_self, Nat.mod_eq_of_lt (by norm_num)]
    norm_num
  · rw [idOfConstruction, idOfConstruction, m_last_id_after_eq, m_last_id_after_eq,
      id_modulus]
    norm_num

/-- C2 (amended): within one process run, the identifiers assigned at
construction are strictly increasing — hence pairwise distinct and never
reused — for the first 2^64 - 1 constructions, i.e. for as long as the
64-bit counter has not wrapped. -/
theorem id_strictly_increasing_before_wrap (m n : Nat)
    (_hm : 0 < m) (hmn : m < n) (hn : n < 2 ^ 64) :
    idOfConstruction m < idOfConstruction n := by
  rw [idOfConstruction, idOfConstruction, m_last_id_after_eq, m_last_id_after_eq,
    id_modulus, Nat.mod_eq_of_lt (by omega), Nat.mod_eq_of_lt hn]
  exact hmn

theorem id_strictly_increasing_before_wrap_witness :
    0 < 1 ∧ 1 < 2 ∧ 2 < 2 ^ 64 ∧ idOfConstruction 1 < idOfConstruction 2 :=
  ⟨by norm_num, by norm_num, by norm_num,
    id_strictly_increasing_before_wrap 1 2 (by norm_num) (by norm_num) (by norm_num)⟩

/-- C3: the claim states that when the counter holds its maximum value the
next allocation saturates at the maximum and the allocated identifier is
never smaller than the previous one.  The code wraps instead: with the
counter at 2^64 - 1, NewID returns 0, which is smaller than the identifier
2^64 - 1 allocated just before (when the counter held 2^64 - 2). -/
theorem newid_wraps_at_max :
    NewID (2 ^ 64 - 1) = 0 ∧
    NewID (2 ^ 64 - 2) = 2 ^ 64 - 1 ∧
    NewID (2 ^ 64 - 1) < NewID (2 ^ 64 - 2) := by
  have h1 : NewID (2 ^ 64 - 1) = 0 := by
    rw [NewID, id_modulus]
    norm_num
  have h2 : NewID (2 ^ 64 - 2) = 2 ^ 64 - 1 := by
    rw [NewID, id_modulus]
    rw [Nat.mod_eq_of_lt (by norm_num)]
    omega
  refine ⟨h1, h2, ?_⟩
  rw [h1, h2]
  norm_num

/-! ## Synchronized fields and their wire codec

SyncedType.hpp is among the provided sources (the policy enumeration and
the default member initialiser m_modified = true); the bodies of the
SyncedType member functions live in SyncedType.inl / SyncedType.cpp, which
are not provided, so the per-field codec is modelled from the spec. -/

/-- SynchronizationType (SyncedType.hpp lines 17-21). -/
inductive SynchronizationType where
  | Static
  | Dynamic
  | Stream
deriving DecidableEq

/-- A SyncedType field: its compile-time policy, the dirty flag with its
in-class initialiser m_modified = true (SyncedType.hpp line 79), the value
cell, and a flag abstracting whether the per-field stream timer has
elapsed at least the configured stream period (wall-clock time is outside
the shallow embedding). -/
structure SyncedType (α : Type) where
  sync_type : SynchronizationType
  m_modified : Bool := true
  stream_due : Bool := false
  m_value : α
deriving DecidableEq

variable {α : Type}

/-- BaseSyncedType::GetModified (declared SyncedType.hpp lines 47-50):
returns the dirty flag. -/
def GetModified (f : SyncedType α) : Bool := f.m_modified

/-- BaseSyncedType::SetModified (declared SyncedType.hpp lines 52-55):
stores the dirty flag. -/
def SetModified (f : SyncedType α) (b : Bool) : SyncedType α :=
  { f with m_modified := b }

/-- Modelled from the spec: SyncedType::SetValue (body in the missing
SyncedType.inl) overwrites the value and marks the field dirty, notifying
the owner. -/
def SetValue (f : SyncedType α) (v : α) : SyncedType α :=
  { f with m_value := v, m_modified := true }

/-- Field construction: the constructors take the owner and initial value;
the dirty flag starts at its in-class initialiser m_modified = true
(SyncedType.hpp line 79). -/
def mkSyncedType (t : SynchronizationType) (v : α) : SyncedType α :=
  { sync_type := t, m_value := v }

/-- SyncedObject::Serialize (SyncedObject.cpp lines 58-66) iterates the
registered members in registration order, each member appending its value
to the Message.  Modelled from the spec for the member-level Full pass
(SyncedType.inl is not provided): in a Full pass every field writes its
current value regardless of policy or dirty flag.  The Message is
abstracted as the ordered list of written values. -/
def Serialize : List (SyncedType α) → List α
  | [] => []
  | f :: fs => f.m_value :: Serialize fs

/-- SyncedObject::Deserialize (SyncedObject.cpp lines 68-72) iterates the
registered members in registration order, each member reading its value
from the Message.  Modelled from the spec for the member-level Full pass:
each field consumes exactly one value, stores it without re-marking the
dirty flag, and reading past the end of the message is an underrun
failure (None). -/
def Deserialize : List (SyncedType α) → List α → Option (List (SyncedType α) × List α)
  | [], msg => some ([], msg)
  | _ :: _, [] => none
  | f :: fs, v :: rest =>
      match Deserialize fs rest with
      | some (fs2, rem) => some ({ f with m_value := v } :: fs2, rem)
      | none => none

/-- Result of one field slot of a Delta pass: the due/not-due presence
bit, the payload bytes the field contributed, and the updated field. -/
structure DeltaFieldResult (α : Type) where
  present : Bool
  payload : List α
  field : SyncedType α
deriving DecidableEq

/-- Modelled from the spec: the member-level Delta/StreamDue pass
(SyncedType.inl is not provided).  Dynamic fields are written only while
the dirty flag is set, and the flag is cleared after writing; Static
fields write nothing in an incremental update; Stream fields are written
when the per-field stream timer has elapsed the configured period, which
resets the timer.  Each field slot contributes one presence bit to the
delta bitmask. -/
def serializeFieldDelta (f : SyncedType α) : DeltaFieldResult α :=
  match f.sync_type with
  | SynchronizationType.Dynamic =>
      if f.m_modified then
        ⟨true, [f.m_value], { f with m_modified := false }⟩
      else
        ⟨false, [], f⟩
  | SynchronizationType.Static => ⟨false, [], f⟩
  | SynchronizationType.Stream =>
      if f.stream_due then
        ⟨true, [f.m_value], { f with stream_due := false }⟩
      else
        ⟨false, [], f⟩

/-- A whole-object delta message: the per-slot presence bitmask, the
payload of the written fields, and the updated field list. -/
structure DeltaResult (α : Type) where
  mask : List Bool
  payload : List α
  fields : List (SyncedType α)
deriving DecidableEq

/-- Object-level Delta serialization: iterate the registered members in
registration order, collecting presence bits and payload (modelled from
the spec; the object-level iteration order follows SyncedObject::Serialize,
SyncedObject.cpp lines 58-66). -/
def serializeDelta : List (SyncedType α) → DeltaResult α
  | [] => ⟨[], [], []⟩
  | f :: fs =>
      let r := serializeFieldDelta f
      let rest := serializeDelta fs
      ⟨r.present :: rest.mask, r.payload ++ rest.payload, r.field :: rest.fields⟩

/-- C1: Serialize followed by Deserialize into a freshly constructed
mirror whose fields were registered in the same order reproduces every
field value exactly, and consumes exactly the values the serialization
produced: whatever bytes follow them in the message are left unread.  The
mirror is any field list with the same schema (same policies in the same
order); its initial values and dirty flags are arbitrary. -/
theorem serialize_deserialize_roundtrip (obj mirror : List (SyncedType α))
    (extra : List α)
    (hschema : mirror.map SyncedType.sync_type = obj.map SyncedType.sync_type) :
    ∃ mirror2 : List (SyncedType α),
      Deserialize mirror (Serialize obj ++ extra) = some (mirror2, extra) ∧
      mirror2.map SyncedType.m_value = obj.map SyncedType.m_value := by
  induction obj generalizing mirror with
  | nil =>
      cases mirror with
      | nil => exact ⟨[], rfl, rfl⟩
      | cons g gs => simp at hschema
  | cons f fs ih =>
      cases mirror with
      | nil => simp at hschema
      | cons g gs =>
          simp only [List.map_cons, List.cons.injEq] at hschema
          obtain ⟨m2, hm2, hval⟩ := ih gs hschema.2
          refine ⟨{ g with m_value := f.m_value } :: m2, ?_, ?_⟩
          · simp only [Serialize, List.cons_append, Deserialize, List.append_eq, hm2]
          · simp [hval]

theorem serialize_deserialize_roundtrip_witness :
    ([⟨SynchronizationType.Dynamic, false, false, (0 : Nat)⟩,
      ⟨SynchronizationType.Static, true, false, 9⟩].map SyncedType.sync_type
      = [⟨SynchronizationType.Dynamic, true, false, (7 : Nat)⟩,
         ⟨SynchronizationType.Static, true, false, 5⟩].map SyncedType.sync_type) ∧
    ∃ mirror2 : List (SyncedType Nat),
      Deserialize
        [⟨SynchronizationType.Dynamic, false, false, (0 : Nat)⟩,
         ⟨SynchronizationType.Static, true, false, 9⟩]
        (Serialize
          [⟨SynchronizationType.Dynamic, true, false, (7 : Nat)⟩,
           ⟨SynchronizationType.Static, true, false, 5⟩] ++ [3]) =
        some (mirror2, [3]) ∧
      mirror2.map SyncedType.m_value =
        [⟨SynchronizationType.Dynamic, true, false, (7 : Nat)⟩,
         ⟨SynchronizationType.Static, true, false, 5⟩].map SyncedType.m_value :=
  ⟨by decide,
   serialize_deserialize_roundtrip _ _ [3] (by decide)⟩

/-- C8: for an object all of whose fields are Dynamic, one Delta pass
clears the dirty flag of every field (every field it writes is cleared,
and the unwritten ones were already clear), and an immediately following
Delta pass with no intervening mutation marks no field present and
produces an empty payload. -/
theorem delta_clears_and_second_delta_empty (fields : List (SyncedType α))
    (hdyn : ∀ f ∈ fields, f.sync_type = SynchronizationType.Dynamic) :
    (∀ f ∈ (serializeDelta fields).fields, f.m_modified = false) ∧
    (∀ b ∈ (serializeDelta (serializeDelta fields).fields).mask, b = false) ∧
    (serializeDelta (serializeDelta fields).fields).payload = [] := by
  induction fields with
  | nil => exact ⟨by simp [serializeDelta], by simp [serializeDelta], rfl⟩
  | cons f fs ih =>
      have hf : f.sync_type = SynchronizationType.Dynamic :=
        hdyn f (List.mem_cons_self f fs)
      have hfs : ∀ g ∈ fs, g.sync_type = SynchronizationType.Dynamic :=
        fun g hg => hdyn g (List.mem_cons_of_mem f hg)
      obtain ⟨ih1, ih2, ih3⟩ := ih hfs
      by_cases hmod : f.m_modified = true
      · refine ⟨?_, ?_, ?_⟩
        · intro g hg
          simp only [serializeDelta, serializeFieldDelta, hf, hmod, if_true,
            List.mem_cons] at hg
          rcases hg with hg | hg
          · rw [hg]
          · exact ih1 g hg
        · intro b hb
          simp only [serializeDelta, serializeFieldDelta, hf, hmod, if_true,
            List.mem_cons] at hb
          rcases hb with hb | hb
          · exact hb
          · exact ih2 b hb
        · simp only [serializeDelta, serializeFieldDelta, hf, hmod, if_true]
          simpa using ih3
      · have hmod2 : f.m_modified = false := by
          cases h : f.m_modified
          · rfl
          · exact absurd h hmod
        refine ⟨?_, ?_, ?_⟩
        · intro g hg
          simp only [serializeDelta, serializeFieldDelta, hf, hmod2,
            Bool.false_eq_true, if_false, List.mem_cons] at hg
          rcases hg with hg | hg
          · rw [hg]; exact hmod2
          · exact ih1 g hg
        · intro b hb
          simp only [serializeDelta, serializeFieldDelta, hf, hmod2,
            Bool.false_eq_true, if_false, List.mem_cons] at hb
          rcases hb with hb | hb
          · exact hb
          · exact ih2 b hb
        · simp only [serializeDelta, serializeFieldDelta, hf, hmod2,
            Bool.false_eq_true, if_false]
          simpa using ih3

theorem delta_clears_and_second_delta_empty_witness :
    (∀ f ∈ [mkSyncedType SynchronizationType.Dynamic (3 : Nat),
            SetValue (mkSyncedType SynchronizationType.Dynamic 0) 8],
       f.sync_type = SynchronizationType.Dynamic) ∧
    ((∀ f ∈ (serializeDelta [mkSyncedType SynchronizationType.Dynamic (3 : Nat),
            SetValue (mkSyncedType SynchronizationType.Dynamic 0) 8]).fields,
        f.m_modified = false) ∧
     (∀ b ∈ (serializeDelta (serializeDelta
            [mkSyncedType SynchronizationType.Dynamic (3 : Nat),
             SetValue (mkSyncedType SynchronizationType.Dynamic 0) 8]).fields).mask,
        b = false) ∧
     (serializeDelta (serializeDelta
            [mkSyncedType SynchronizationType.Dynamic (3 : Nat),
             SetValue (mkSyncedType SynchronizationType.Dynamic 0) 8]).fields).payload = []) :=
  ⟨by decide, delta_clears_and_second_delta_empty _ (by decide)⟩

/-- C10: a newly constructed field starts dirty — GetModified returns true
on a field that has never been written (in-class initialiser m_modified =
true, SyncedType.hpp line 79) — so the first Delta pass after construction
marks a never-mutated Dynamic field present. -/
theorem fresh_field_starts_modified (t : SynchronizationType) (v : α) :
    GetModified (mkSyncedType t v) = true ∧
    (serializeFieldDelta (mkSyncedType SynchronizationType.Dynamic v)).present = true :=
  ⟨rfl, rfl⟩

theorem fresh_field_starts_modified_witness :
    GetModified (mkSyncedType SynchronizationType.Static (5 : Nat)) = true ∧
    (serializeFieldDelta (mkSyncedType SynchronizationType.Dynamic (5 : Nat))).present = true :=
  fresh_field_starts_modified SynchronizationType.Static 5

/-! ## SyncedObject lifecycle and the Synchronizer interface

The SyncedObject member functions below are translated directly from
SyncedObject.cpp.  Each records the sequence of Synchronizer member calls
it performs as data: a list of pairs (synchronizer identity, call).  The
Synchronizer bodies themselves (Synchronizer.cpp is not provided) are
modelled from the spec further down. -/

/-- A call made into a Synchronizer.  Each call carries the identifier of
the calling object and the storage address passed as the object pointer. -/
inductive SyncCall where
  | addObject (id addr : Nat)
  | removeObject (id addr : Nat)
  | moveObject (id fromAddr toAddr : Nat)
  | updateObject (id addr : Nat)
deriving DecidableEq

/-- Wire messages a Synchronizer can emit towards its peer. -/
inductive WireMsg where
  | create (id : Nat)
  | delta (id : Nat)
  | destroy (id : Nat)
deriving DecidableEq

/-- Modelled from the spec: the Synchronizer state (Synchronizer.cpp is
not provided).  It owns a mapping from object identifier to the storage
address of the object, per-object scheduling state (snapshots to send,
pending removals, objects with dirty fields), and a destroyed flag read
through IsDestroyed. -/
structure Synchronizer where
  objects : List (Nat × Nat) := []
  pendingFull : List Nat := []
  pendingDestroy : List Nat := []
  pendingUpdate : List Nat := []
  destroyed : Bool := false
deriving DecidableEq

/-- Modelled from the spec: the effect of one call on a Synchronizer,
together with the wire traffic the call itself emits.  addObject registers
the identifier and schedules a Full snapshot, failing (leaving the state
unchanged) on a duplicate identifier; removeObject schedules a destruction
notice and purges all scheduling state for the identifier; moveObject
repoints the stored address without altering schedule state; updateObject
marks the object as having pending work.  None of these emits wire traffic
itself: all emission happens on tick. -/
def Synchronizer.apply (S : Synchronizer) : SyncCall → Synchronizer × List WireMsg
  | SyncCall.addObject id addr =>
      if S.objects.any (fun p => p.1 == id) then
        (S, [])
      else
        ({ S with
            objects := S.objects ++ [(id, addr)],
            pendingFull := id :: S.pendingFull }, [])
  | SyncCall.removeObject id _addr =>
      ({ S with
          objects := S.objects.filter (fun p => p.1 != id),
          pendingFull := S.pendingFull.filter (fun i => i != id),
          pendingUpdate := S.pendingUpdate.filter (fun i => i != id),
          pendingDestroy := id :: S.pendingDestroy }, [])
  | SyncCall.moveObject id _fromAddr toAddr =>
      ({ S with
          objects := S.objects.map (fun p => if p.1 == id then (p.1, toAddr) else p) },
       [])
  | SyncCall.updateObject id _addr =>
      ({ S with pendingUpdate := id :: S.pendingUpdate }, [])

/-- SyncedObject state (SyncedObject.hpp members as used by
SyncedObject.cpp): the identifier, the optional association with one
Synchronizer (held by identity), and the changed flag. -/
structure SyncedObject where
  m_id : Nat
  m_synchronizer : Option Nat := none
  m_changed : Bool := false
deriving DecidableEq

/-- SyncedObject move constructor (SyncedObject.cpp lines 19-29): copies
the identifier; when the source is attached, adopts its synchronizer,
performs one MoveObject call repointing the bookkeeping from the source
storage to the new storage, and nulls the source association.  Returns
(the new object, the moved-from source, the calls performed). -/
def moveConstruct (obj : SyncedObject) (srcAddr thisAddr : Nat) :
    SyncedObject × SyncedObject × List (Nat × SyncCall) :=
  match obj.m_synchronizer with
  | some s =>
      ({ m_id := obj.m_id, m_synchronizer := some s },
       { obj with m_synchronizer := none },
       [(s, SyncCall.moveObject obj.m_id srcAddr thisAddr)])
  | none => ({ m_id := obj.m_id }, obj, [])

/-- SyncedObject move assignment (SyncedObject.cpp lines 31-50): copies
the identifier first; then, only when the target is attached, either
performs MoveObject (same synchronizer) or removes the target from its
synchronizer and adds it to the source synchronizer.  The source
association is never cleared.  Returns (the assigned target, the
moved-from source, the calls performed). -/
def moveAssign (tgt obj : SyncedObject) (srcAddr tgtAddr : Nat) :
    SyncedObject × SyncedObject × List (Nat × SyncCall) :=
  let tgt1 : SyncedObject := { tgt with m_id := obj.m_id }
  match tgt1.m_synchronizer with
  | none => (tgt1, obj, [])
  | some s =>
      if obj.m_synchronizer = some s then
        (tgt1, obj, [(s, SyncCall.moveObject obj.m_id srcAddr tgtAddr)])
      else
        match obj.m_synchronizer with
        | some s2 =>
            ({ tgt1 with m_synchronizer := some s2 }, obj,
             [(s, SyncCall.removeObject tgt1.m_id tgtAddr),
              (s2, SyncCall.addObject tgt1.m_id tgtAddr)])
        | none =>
            (tgt1, obj, [(s, SyncCall.removeObject tgt1.m_id tgtAddr)])

/-- SyncedObject destructor (SyncedObject.cpp lines 52-56): when attached,
performs exactly one RemoveObject call on the associated synchronizer;
otherwise performs no call at all. -/
def destructorCalls (obj : SyncedObject) (addr : Nat) : List (Nat × SyncCall) :=
  match obj.m_synchronizer with
  | some s => [(s, SyncCall.removeObject obj.m_id addr)]
  | none => []

/-- SyncedObject::NotifyChanged (SyncedObject.cpp lines 91-97): sets the
changed flag and, when a synchronizer is attached, calls UpdateObject on
it. -/
def NotifyChanged (obj : SyncedObject) (addr : Nat) :
    SyncedObject × List (Nat × SyncCall) :=
  ({ obj with m_changed := true },
   match obj.m_synchronizer with
   | some s => [(s, SyncCall.updateObject obj.m_id addr)]
   | none => [])

/-- The removal part of SetSynchronizer (SyncedObject.cpp lines 100-102):
when currently attached to a synchronizer that is not destroyed, one
RemoveObject call on it; otherwise nothing. -/
def preCalls (mid addr : Nat) (cur : Option Nat) (isDestroyed : Nat → Bool) :
    List (Nat × SyncCall) :=
  match cur with
  | some c => if isDestroyed c then [] else [(c, SyncCall.removeObject mid addr)]
  | none => []

/-- The addition part of SetSynchronizer (SyncedObject.cpp lines 106-108):
when the new association is non-null, one AddObject call on it. -/
def postCalls (mid addr : Nat) : Option Nat → List (Nat × SyncCall)
  | some ns => [(ns, SyncCall.addObject mid addr)]
  | none => []

/-- SyncedObject::SetSynchronizer (SyncedObject.cpp lines 99-109): when
currently attached to a synchronizer that is not destroyed, first performs
RemoveObject on it; then stores the new association; then, when the new
association is non-null, performs AddObject on the new synchronizer.  The
isDestroyed argument abstracts IsDestroyed on the current synchronizer. -/
def setSynchronizer (obj : SyncedObject) (addr : Nat) (s : Option Nat)
    (isDestroyed : Nat → Bool) : SyncedObject × List (Nat × SyncCall) :=
  ({ obj with m_synchronizer := s },
   preCalls obj.m_id addr obj.m_synchronizer isDestroyed ++ postCalls obj.m_id addr s)

/-- C4: move-constructing from an attached SyncedObject preserves the
identifier, transfers the association to the new object, performs exactly
one MoveObject call (not a remove-then-add), leaves the moved-from object
detached, and that MoveObject call emits no wire traffic, alters no
schedule state, and merely repoints the bookkeeping entry for the
identifier to the new storage address. -/
theorem move_construct_is_pure_relocation (obj : SyncedObject)
    (srcAddr thisAddr s : Nat) (S : Synchronizer)
    (h : obj.m_synchronizer = some s) :
    (moveConstruct obj srcAddr thisAddr).1.m_id = obj.m_id ∧
    (moveConstruct obj srcAddr thisAddr).1.m_synchronizer = some s ∧
    (moveConstruct obj srcAddr thisAddr).2.1.m_synchronizer = none ∧
    (moveConstruct obj srcAddr thisAddr).2.2 =
      [(s, SyncCall.moveObject obj.m_id srcAddr thisAddr)] ∧
    (S.apply (SyncCall.moveObject obj.m_id srcAddr thisAddr)).2 = [] ∧
    (S.apply (SyncCall.moveObject obj.m_id srcAddr thisAddr)).1.pendingFull =
      S.pendingFull ∧
    (S.apply (SyncCall.moveObject obj.m_id srcAddr thisAddr)).1.pendingDestroy =
      S.pendingDestroy ∧
    (S.apply (SyncCall.moveObject obj.m_id srcAddr thisAddr)).1.pendingUpdate =
      S.pendingUpdate ∧
    ∀ a, (obj.m_id, a) ∈ S.objects →
      (obj.m_id, thisAddr) ∈
        (S.apply (SyncCall.moveObject obj.m_id srcAddr thisAddr)).1.objects := by
  refine ⟨?_, ?_, ?_, ?_, rfl, rfl, rfl, rfl, ?_⟩
  · simp [moveConstruct, h]
  · simp [moveConstruct, h]
  · simp [moveConstruct, h]
  · simp [moveConstruct, h]
  · intro a ha
    simp only [Synchronizer.apply]
    refine List.mem_map.mpr ⟨(obj.m_id, a), ha, ?_⟩
    simp

theorem move_construct_is_pure_relocation_witness :
    ((⟨4, some 2, false⟩ : SyncedObject).m_synchronizer = some 2) ∧
    ((moveConstruct ⟨4, some 2, false⟩ 1 9).1.m_id = (⟨4, some 2, false⟩ : SyncedObject).m_id ∧
     (moveConstruct ⟨4, some 2, false⟩ 1 9).1.m_synchronizer = some 2 ∧
     (moveConstruct ⟨4, some 2, false⟩ 1 9).2.1.m_synchronizer = none ∧
     (moveConstruct ⟨4, some 2, false⟩ 1 9).2.2 =
       [(2, SyncCall.moveObject 4 1 9)] ∧
     (Synchronizer.apply ⟨[(4, 1)], [], [], [], false⟩
        (SyncCall.moveObject 4 1 9)).2 = [] ∧
     (Synchronizer.apply ⟨[(4, 1)], [], [], [], false⟩
        (SyncCall.moveObject 4 1 9)).1.pendingFull = ([] : List Nat) ∧
     (Synchronizer.apply ⟨[(4, 1)], [], [], [], false⟩
        (SyncCall.moveObject 4 1 9)).1.pendingDestroy = ([] : List Nat) ∧
     (Synchronizer.apply ⟨[(4, 1)], [], [], [], false⟩
        (SyncCall.moveObject 4 1 9)).1.pendingUpdate = ([] : List Nat) ∧
     ∀ a, ((4 : Nat), a) ∈ [((4 : Nat), (1 : Nat))] →
       ((4 : Nat), (9 : Nat)) ∈
         (Synchronizer.apply ⟨[(4, 1)], [], [], [], false⟩
            (SyncCall.moveObject 4 1 9)).1.objects) :=
  ⟨rfl, move_construct_is_pure_relocation ⟨4, some 2, false⟩ 1 9 2
      ⟨[(4, 1)], [], [], [], false⟩ rfl⟩

/-- C5: the claim states that move assignment is a pure relocation that
leaves the source detached so that its destruction performs no
deregistration.  The code falsifies this: with a source (id 5) and a
target (id 7) both attached to synchronizer 0, after move assignment the
source is still attached to synchronizer 0, its destruction still performs
a RemoveObject call, and applying that call to a synchronizer that tracks
the shared identifier 5 (now pointing at the target storage) purges the
entry the living target depends on. -/
theorem move_assign_leaves_source_attached :
    (moveAssign ⟨7, some 0, false⟩ ⟨5, some 0, false⟩ 1 2).2.1.m_synchronizer = some 0 ∧
    destructorCalls (moveAssign ⟨7, some 0, false⟩ ⟨5, some 0, false⟩ 1 2).2.1 1 =
      [(0, SyncCall.removeObject 5 1)] ∧
    (Synchronizer.apply ⟨[(5, 2)], [], [], [], false⟩
        (SyncCall.removeObject 5 1)).1.objects = [] := by
  refine ⟨rfl, rfl, ?_⟩
  decide

/-- C7: destroying a SyncedObject performs exactly one RemoveObject call
on its synchronizer when attached and no call at all when detached; and
applying a RemoveObject call purges every bookkeeping entry for the
identifier, so the synchronizer holds no reference to the destroyed
object afterwards. -/
theorem destructor_deregisters_exactly_once (obj : SyncedObject)
    (addr : Nat) (S : Synchronizer) (id a : Nat) :
    destructorCalls obj addr =
      (obj.m_synchronizer.map
        (fun s => (s, SyncCall.removeObject obj.m_id addr))).toList ∧
    ((S.apply (SyncCall.removeObject id a)).1.objects.all
      (fun p => p.1 != id)) = true := by
  constructor
  · cases h : obj.m_synchronizer <;> simp [destructorCalls, h]
  · simp only [Synchronizer.apply, List.all_eq_true]
    intro p hp
    exact (List.mem_filter.mp hp).2

theorem destructor_deregisters_exactly_once_witness :
    (destructorCalls ⟨6, some 3, true⟩ 11 =
      ((some 3 : Option Nat).map
        (fun s => (s, SyncCall.removeObject 6 11))).toList ∧
     ((Synchronizer.apply ⟨[(6, 11), (2, 4)], [6], [], [6], false⟩
        (SyncCall.removeObject 6 11)).1.objects.all
        (fun p => p.1 != 6)) = true) ∧
    (destructorCalls ⟨6, none, false⟩ 11 = []) :=
  ⟨destructor_deregisters_exactly_once ⟨6, some 3, true⟩ 11
      ⟨[(6, 11), (2, 4)], [6], [], [6], false⟩ 6 11,
   rfl⟩

/-- C9: NotifyChanged sets the changed flag to true and performs exactly
one UpdateObject call on the attached synchronizer when one is attached
and no call otherwise; besides the flag (and that call) nothing changes.
The equality characterises the function completely, so UpdateObject is
called if and only if a synchronizer is attached. -/
theorem notify_changed_characterisation (obj : SyncedObject) (addr : Nat) :
    NotifyChanged obj addr =
      ({ obj with m_changed := true },
       (obj.m_synchronizer.map
         (fun s => (s, SyncCall.updateObject obj.m_id addr))).toList) := by
  cases h : obj.m_synchronizer <;> simp [NotifyChanged, h]

theorem notify_changed_characterisation_witness :
    NotifyChanged ⟨8, none, false⟩ 3 =
      ({ m_id := 8, m_synchronizer := none, m_changed := true },
       ((none : Option Nat).map
         (fun s => (s, SyncCall.updateObject 8 3))).toList) :=
  notify_changed_characterisation ⟨8, none, false⟩ 3

/-! ## The one-synchronizer-at-a-time invariant (C6)

A world is a list of synchronizers addressed by identity.  Applying a call
trace to the world lets us state that, across any sequence of
SetSynchronizer calls, at most the currently associated synchronizer
retains bookkeeping for the object. -/

/-- Deliver one call to the synchronizer it addresses. -/
def applyCall (w : List (Nat × Synchronizer)) (c : Nat × SyncCall) :
    List (Nat × Synchronizer) :=
  w.map (fun p => if p.1 == c.1 then (p.1, (p.2.apply c.2).1) else p)

/-- Deliver a call trace in order. -/
def applyCalls (w : List (Nat × Synchronizer)) (cs : List (Nat × SyncCall)) :
    List (Nat × Synchronizer) :=
  cs.foldl applyCall w

/-- Look up a synchronizer by identity. -/
def findSync : List (Nat × Synchronizer) → Nat → Option Synchronizer
  | [], _ => none
  | p :: ps, sid => if p.1 = sid then some p.2 else findSync ps sid

/-- IsDestroyed, read through the world. -/
def destroyedIn (w : List (Nat × Synchronizer)) (sid : Nat) : Bool :=
  ((findSync w sid).map Synchronizer.destroyed).getD false

/-- Whether a synchronizer holds a bookkeeping entry pointing at the
storage address addr. -/
def containsAddr (S : Synchronizer) (addr : Nat) : Bool :=
  S.objects.any (fun q => q.2 == addr)

/-- The one-synchronizer-at-a-time invariant: every synchronizer that is
not destroyed and retains bookkeeping for the storage of the object is
exactly the one the object is currently associated with. -/
def OneSyncInv (obj : SyncedObject) (addr : Nat)
    (w : List (Nat × Synchronizer)) : Prop :=
  ∀ p ∈ w, p.2.destroyed = false → containsAddr p.2 addr = true →
    obj.m_synchronizer = some p.1

/-- Well-formedness of the world relative to the object: a bookkeeping
entry carries the identifier of the object exactly when it points at the
storage of the object (identifiers are unique per object, and the
Synchronizer keys its state by identifier). -/
def AddrIdWF (obj : SyncedObject) (addr : Nat)
    (w : List (Nat × Synchronizer)) : Prop :=
  ∀ p ∈ w, ∀ q ∈ p.2.objects, (q.1 = obj.m_id ↔ q.2 = addr)

/-- No synchronizer that is alive holds bookkeeping for the address. -/
def NoLiveContains (addr : Nat) (w : List (Nat × Synchronizer)) : Prop :=
  ∀ p ∈ w, p.2.destroyed = false → containsAddr p.2 addr = false

/-- One SetSynchronizer call on the object followed by delivering the
Synchronizer calls it performs. -/
def reattachStep (addr : Nat) (st : SyncedObject × List (Nat × Synchronizer))
    (c : Option Nat) : SyncedObject × List (Nat × Synchronizer) :=
  ((setSynchronizer st.1 addr c (destroyedIn st.2)).1,
   applyCalls st.2 (setSynchronizer st.1 addr c (destroyedIn st.2)).2)

/-- A whole sequence of SetSynchronizer calls on one object. -/
def reattachRun (addr : Nat) (st : SyncedObject × List (Nat × Synchronizer))
    (choices : List (Option Nat)) : SyncedObject × List (Nat × Synchronizer) :=
  choices.foldl (reattachStep addr) st

theorem applyCall_map_fst (w : List (Nat × Synchronizer)) (c : Nat × SyncCall) :
    (applyCall w c).map Prod.fst = w.map Prod.fst := by
  unfold applyCall
  rw [List.map_map]
  apply List.map_congr_left
  intro p _
  by_cases h : p.1 = c.1 <;> simp [h, Function.comp]

theorem mem_applyCall_cases {w : List (Nat × Synchronizer)} {tid : Nat}
    {call : SyncCall} {x : Nat × Synchronizer}
    (hx : x ∈ applyCall w (tid, call)) :
    (∃ S, (tid, S) ∈ w ∧ x = (tid, (S.apply call).1)) ∨ (x ∈ w ∧ x.1 ≠ tid) := by
  obtain ⟨p, hp, hpe⟩ := List.mem_map.mp hx
  by_cases h : p.1 = tid
  · left
    refine ⟨p.2, ?_, ?_⟩
    · rw [← h]; exact hp
    · rw [← hpe]; simp [h]
  · right
    have hxp : x = p := by rw [← hpe]; simp [h]
    rw [hxp]
    exact ⟨hp, h⟩

theorem remove_not_contains (S : Synchronizer) (mid a addr : Nat)
    (hwf : ∀ q ∈ S.objects, (q.1 = mid ↔ q.2 = addr)) :
    containsAddr ((S.apply (SyncCall.removeObject mid a)).1) addr = false := by
  rw [← Bool.not_eq_true]
  intro hcon
  simp only [containsAddr, Synchronizer.apply, List.any_eq_true] at hcon
  obtain ⟨q, hq, hqa⟩ := hcon
  have hmem := List.mem_filter.mp hq
  have h1 : ¬(q.1 = mid) := by simpa using hmem.2
  have h2 : q.2 = addr := by simpa using hqa
  exact h1 ((hwf q hmem.1).mpr h2)

theorem wf_entry_remove (S : Synchronizer) (mid a addr : Nat)
    (hwf : ∀ q ∈ S.objects, (q.1 = mid ↔ q.2 = addr)) :
    ∀ q ∈ ((S.apply (SyncCall.removeObject mid a)).1).objects,
      (q.1 = mid ↔ q.2 = addr) := by
  intro q hq
  simp only [Synchronizer.apply] at hq
  exact hwf q (List.mem_filter.mp hq).1

theorem wf_entry_add (S : Synchronizer) (mid addr : Nat)
    (hwf : ∀ q ∈ S.objects, (q.1 = mid ↔ q.2 = addr)) :
    ∀ q ∈ ((S.apply (SyncCall.addObject mid addr)).1).objects,
      (q.1 = mid ↔ q.2 = addr) := by
  intro q hq
  simp only [Synchronizer.apply] at hq
  by_cases hg : S.objects.any (fun p => p.1 == mid) = true
  · simp only [hg, if_true] at hq
    exact hwf q hq
  · rw [Bool.not_eq_true] at hg
    simp only [hg, Bool.false_eq_true, if_false] at hq
    rcases List.mem_append.mp hq with h | h
    · exact hwf q h
    · have hq2 : q = (mid, addr) := by simpa using h
      rw [hq2]
      simp

theorem findSync_eq_of_mem {w : List (Nat × Synchronizer)} {sid : Nat}
    {S : Synchronizer} (hnd : (w.map Prod.fst).Nodup) (hm : (sid, S) ∈ w) :
    findSync w sid = some S := by
  induction w with
  | nil => cases hm
  | cons p ps ih =>
      rw [List.map_cons, List.nodup_cons] at hnd
      rcases List.mem_cons.mp hm with h | h
      · rw [← h]
        simp [findSync]
      · have hsid : sid ∈ ps.map Prod.fst := List.mem_map.mpr ⟨(sid, S), h, rfl⟩
        have hne : ¬(p.1 = sid) := fun he => hnd.1 (he ▸ hsid)
        simp only [findSync, if_neg hne]
        exact ih hnd.2 h

theorem inv_of_nolive (obj2 : SyncedObject) (addr : Nat)
    (w : List (Nat × Synchronizer)) (h : NoLiveContains addr w) :
    OneSyncInv obj2 addr w := by
  intro p hp hlive hcont
  rw [h p hp hlive] at hcont
  exact Bool.noConfusion hcont

theorem inv_after_add (obj2 : SyncedObject) (addr mid ns : Nat)
    (w : List (Nat × Synchronizer)) (h : NoLiveContains addr w)
    (hassoc : obj2.m_synchronizer = some ns) :
    OneSyncInv obj2 addr (applyCall w (ns, SyncCall.addObject mid addr)) := by
  intro p2 hp2 hlive hcont
  rcases mem_applyCall_cases hp2 with ⟨S, hS, he⟩ | ⟨hp, hne⟩
  · rw [he]
    exact hassoc
  · rw [h p2 hp hlive] at hcont
    exact Bool.noConfusion hcont

theorem step_core (obj2 : SyncedObject) (mid addr : Nat)
    (w2 : List (Nat × Synchronizer)) (c : Option Nat)
    (hNL : NoLiveContains addr w2)
    (hWF2 : ∀ p ∈ w2, ∀ q ∈ p.2.objects, (q.1 = mid ↔ q.2 = addr))
    (hassoc : obj2.m_synchronizer = c) (hmid : obj2.m_id = mid) :
    (applyCalls w2 (postCalls mid addr c)).map Prod.fst = w2.map Prod.fst ∧
    OneSyncInv obj2 addr (applyCalls w2 (postCalls mid addr c)) ∧
    AddrIdWF obj2 addr (applyCalls w2 (postCalls mid addr c)) := by
  cases c with
  | none =>
      refine ⟨rfl, inv_of_nolive _ _ _ hNL, ?_⟩
      intro p hp q hq
      rw [hmid]
      exact hWF2 p hp q hq
  | some ns =>
      have h1 : applyCalls w2 (postCalls mid addr (some ns)) =
          applyCall w2 (ns, SyncCall.addObject mid addr) := rfl
      rw [h1]
      refine ⟨applyCall_map_fst _ _, ?_, ?_⟩
      · exact inv_after_add obj2 addr mid ns w2 hNL hassoc
      · intro p hp q hq
        rw [hmid]
        rcases mem_applyCall_cases hp with ⟨S, hS, he⟩ | ⟨hpw, _⟩
        · rw [he] at hq
          exact wf_entry_add S mid addr (hWF2 (ns, S) hS) q hq
        · exact hWF2 p hpw q hq

theorem pre_phase (obj : SyncedObject) (addr : Nat)
    (w : List (Nat × Synchronizer))
    (hnd : (w.map Prod.fst).Nodup)
    (hInv : OneSyncInv obj addr w) (hWF : AddrIdWF obj addr w) :
    (applyCalls w (preCalls obj.m_id addr obj.m_synchronizer (destroyedIn w))).map
        Prod.fst = w.map Prod.fst ∧
    NoLiveContains addr
      (applyCalls w (preCalls obj.m_id addr obj.m_synchronizer (destroyedIn w))) ∧
    ∀ p ∈ applyCalls w (preCalls obj.m_id addr obj.m_synchronizer (destroyedIn w)),
      ∀ q ∈ p.2.objects, (q.1 = obj.m_id ↔ q.2 = addr) := by
  cases hsy : obj.m_synchronizer with
  | none =>
      refine ⟨rfl, ?_, fun p hp q hq => hWF p hp q hq⟩
      intro p hp hlive
      rw [← Bool.not_eq_true]
      intro hcont
      have h := hInv p hp hlive hcont
      rw [hsy] at h
      exact Option.noConfusion h
  | some cur =>
      by_cases hdes : destroyedIn w cur = true
      · have hpre : preCalls obj.m_id addr (some cur) (destroyedIn w) = [] := by
          simp [preCalls, hdes]
        rw [hpre]
        refine ⟨rfl, ?_, fun p hp q hq => hWF p hp q hq⟩
        intro p hp hlive
        rw [← Bool.not_eq_true]
        intro hcont
        have h := hInv p hp hlive hcont
        rw [hsy] at h
        have hcur : p.1 = cur := (Option.some.inj h).symm
        have hm : (cur, p.2) ∈ w := by rw [← hcur]; exact hp
        have hf := findSync_eq_of_mem hnd hm
        have hdd : destroyedIn w cur = p.2.destroyed := by
          simp [destroyedIn, hf]
        rw [hdd, hlive] at hdes
        exact Bool.noConfusion hdes
      · rw [Bool.not_eq_true] at hdes
        have hpre : preCalls obj.m_id addr (some cur) (destroyedIn w) =
            [(cur, SyncCall.removeObject obj.m_id addr)] := by
          simp [preCalls, hdes]
        rw [hpre]
        have happ : applyCalls w [(cur, SyncCall.removeObject obj.m_id addr)] =
            applyCall w (cur, SyncCall.removeObject obj.m_id addr) := rfl
        rw [happ]
        refine ⟨applyCall_map_fst _ _, ?_, ?_⟩
        · intro p2 hp2 hlive
          rcases mem_applyCall_cases hp2 with ⟨S, hS, he⟩ | ⟨hpw, hne⟩
          · rw [he]
            exact remove_not_contains S obj.m_id addr addr (hWF (cur, S) hS)
          · rw [← Bool.not_eq_true]
            intro hcont
            have h := hInv p2 hpw hlive hcont
            rw [hsy] at h
            exact hne (Option.some.inj h).symm
        · intro p2 hp2 q hq
          rcases mem_applyCall_cases hp2 with ⟨S, hS, he⟩ | ⟨hpw, _⟩
          · rw [he] at hq
            exact wf_entry_remove S obj.m_id addr addr (hWF (cur, S) hS) q hq
          · exact hWF p2 hpw q hq

theorem reattachStep_preserves (obj : SyncedObject) (addr : Nat)
    (w : List (Nat × Synchronizer)) (c : Option Nat)
    (hnd : (w.map Prod.fst).Nodup)
    (hInv : OneSyncInv obj addr w) (hWF : AddrIdWF obj addr w) :
    (reattachStep addr (obj, w) c).2.map Prod.fst = w.map Prod.fst ∧
    OneSyncInv (reattachStep addr (obj, w) c).1 addr
      (reattachStep addr (obj, w) c).2 ∧
    AddrIdWF (reattachStep addr (obj, w) c).1 addr
      (reattachStep addr (obj, w) c).2 := by
  obtain ⟨hfstP, hNL, hWFP⟩ := pre_phase obj addr w hnd hInv hWF
  have hw2 : (reattachStep addr (obj, w) c).2 =
      applyCalls
        (applyCalls w (preCalls obj.m_id addr obj.m_synchronizer (destroyedIn w)))
        (postCalls obj.m_id addr c) := by
    show applyCalls w
        (preCalls obj.m_id addr obj.m_synchronizer (destroyedIn w) ++
          postCalls obj.m_id addr c) = _
    unfold applyCalls
    rw [List.foldl_append]
  have hobj : (reattachStep addr (obj, w) c).1 =
      { obj with m_synchronizer := c } := rfl
  obtain ⟨hf2, hI2, hW2⟩ := step_core { obj with m_synchronizer := c } obj.m_id addr
      (applyCalls w (preCalls obj.m_id addr obj.m_synchronizer (destroyedIn w))) c
      hNL hWFP rfl rfl
  refine ⟨?_, ?_, ?_⟩
  · rw [hw2, hf2, hfstP]
  · rw [hobj, hw2]; exact hI2
  · rw [hobj, hw2]; exact hW2

theorem reattachRun_preserves (addr : Nat) (choices : List (Option Nat)) :
    ∀ (obj : SyncedObject) (w : List (Nat × Synchronizer)),
      (w.map Prod.fst).Nodup → OneSyncInv obj addr w → AddrIdWF obj addr w →
      (reattachRun addr (obj, w) choices).2.map Prod.fst = w.map Prod.fst ∧
      OneSyncInv (reattachRun addr (obj, w) choices).1 addr
        (reattachRun addr (obj, w) choices).2 ∧
      AddrIdWF (reattachRun addr (obj, w) choices).1 addr
        (reattachRun addr (obj, w) choices).2 := by
  induction choices with
  | nil => exact fun obj w _ hI hW => ⟨rfl, hI, hW⟩
  | cons ch chs ih =>
      intro obj w hnd hI hW
      obtain ⟨hf, hI2, hW2⟩ := reattachStep_preserves obj addr w ch hnd hI hW
      have hnd2 : ((reattachStep addr (obj, w) ch).2.map Prod.fst).Nodup := by
        rw [hf]; exact hnd
      obtain ⟨h1, h2, h3⟩ := ih (reattachStep addr (obj, w) ch).1
        (reattachStep addr (obj, w) ch).2 hnd2 hI2 hW2
      have hrun : reattachRun addr (obj, w) (ch :: chs) =
          reattachRun addr
            ((reattachStep addr (obj, w) ch).1, (reattachStep addr (obj, w) ch).2)
            chs := rfl
      rw [hrun]
      exact ⟨h1.trans hf, h2, h3⟩

/-- C6: a SyncedObject is associated with at most one Synchronizer at a
time.  SetSynchronizer first performs the RemoveObject on the current
synchronizer (when one is set and not destroyed) and only then the
AddObject on the new one, and the new association is stored.  Moreover,
across every sequence of SetSynchronizer calls (each an arbitrary choice
of new synchronizer or detachment), delivering the generated calls to the
world of synchronizers preserves the invariant that no synchronizer other
than the current association — destroyed ones apart — retains bookkeeping
for the object. -/
theorem set_synchronizer_one_at_a_time
    (obj : SyncedObject) (addr : Nat) (w : List (Nat × Synchronizer))
    (choices : List (Option Nat)) (o2 : SyncedObject) (a2 cur ns : Nat)
    (d : Nat → Bool)
    (hnd : (w.map Prod.fst).Nodup)
    (hInv : OneSyncInv obj addr w) (hWF : AddrIdWF obj addr w)
    (h2 : o2.m_synchronizer = some cur) (h3 : d cur = false) :
    (setSynchronizer o2 a2 (some ns) d).2 =
      [(cur, SyncCall.removeObject o2.m_id a2),
       (ns, SyncCall.addObject o2.m_id a2)] ∧
    (setSynchronizer o2 a2 (some ns) d).1.m_synchronizer = some ns ∧
    OneSyncInv (reattachRun addr (obj, w) choices).1 addr
      (reattachRun addr (obj, w) choices).2 ∧
    AddrIdWF (reattachRun addr (obj, w) choices).1 addr
      (reattachRun addr (obj, w) choices).2 := by
  obtain ⟨_, hI, hW⟩ := reattachRun_preserves addr choices obj w hnd hInv hWF
  refine ⟨?_, rfl, hI, hW⟩
  simp [setSynchronizer, preCalls, postCalls, h2, h3]

theorem set_synchronizer_one_at_a_time_witness :
    (([((0 : Nat), ({ objects := [(5, 1)] } : Synchronizer)),
       (1, ({} : Synchronizer))].map Prod.fst).Nodup) ∧
    OneSyncInv ⟨5, some 0, false⟩ 1
      [(0, { objects := [(5, 1)] }), (1, {})] ∧
    AddrIdWF ⟨5, some 0, false⟩ 1
      [(0, { objects := [(5, 1)] }), (1, {})] ∧
    ((⟨7, some 2, false⟩ : SyncedObject).m_synchronizer = some 2) ∧
    ((fun (_ : Nat) => false) 2 = false) ∧
    ((setSynchronizer ⟨7, some 2, false⟩ 3 (some 4) (fun _ => false)).2 =
      [(2, SyncCall.removeObject 7 3), (4, SyncCall.addObject 7 3)] ∧
     (setSynchronizer ⟨7, some 2, false⟩ 3 (some 4)
        (fun _ => false)).1.m_synchronizer = some 4 ∧
     OneSyncInv
       (reattachRun 1 (⟨5, some 0, false⟩,
         [(0, { objects := [(5, 1)] }), (1, {})]) [some 1, none, some 0]).1 1
       (reattachRun 1 (⟨5, some 0, false⟩,
         [(0, { objects := [(5, 1)] }), (1, {})]) [some 1, none, some 0]).2 ∧
     AddrIdWF
       (reattachRun 1 (⟨5, some 0, false⟩,
         [(0, { objects := [(5, 1)] }), (1, {})]) [some 1, none, some 0]).1 1
       (reattachRun 1 (⟨5, some 0, false⟩,
         [(0, { objects := [(5, 1)] }), (1, {})]) [some 1, none, some 0]).2) :=
  ⟨by decide,
   by unfold OneSyncInv containsAddr; decide,
   by unfold AddrIdWF; decide,
   rfl, rfl,
   set_synchronizer_one_at_a_time ⟨5, some 0, false⟩ 1
     [(0, { objects := [(5, 1)] }), (1, {})] [some 1, none, some 0]
     ⟨7, some 2, false⟩ 3 2 4 (fun _ => false)
     (by decide)
     (by unfold OneSyncInv containsAddr; decide)
     (by unfold AddrIdWF; decide)
     rfl rfl⟩

end SFNUL
